import Mathlib

/-!
# Verification of the exec-action command execution engine

Shallow embedding of `src/main.ts` (the exec GitHub action): the exit-code
policy parser `parseSuccessExitCodes`, the command tokenizer `parseCommand`,
the `run` orchestration logic, the settlement state machines of
`executeCommand` in Separate and Combined capture mode, and the signal
handler registry managed by `setupSignalHandlers`.

Strings are processed at the `List Char` level (identical content to the
JavaScript code, which iterates over characters), so that all definitions
are executable and decidable on concrete inputs.
-/

namespace ExecAction

instance {ε α : Type _} [DecidableEq ε] [DecidableEq α] :
    DecidableEq (Except ε α) := fun x y =>
  match x, y with
  | .ok a, .ok b =>
    if h : a = b then .isTrue (by rw [h]) else .isFalse (by simp [h])
  | .error a, .error b =>
    if h : a = b then .isTrue (by rw [h]) else .isFalse (by simp [h])
  | .ok _, .error _ => .isFalse (by simp)
  | .error _, .ok _ => .isFalse (by simp)

/-! ## JavaScript string primitives

`jsTrim` models `String.prototype.trim`, `splitOnChar` models
`String.prototype.split` with a single-character separator, and
`jsParseInt` models `parseInt(s, 10)` (ECMA-262 `parseInt` with radix 10):
leading whitespace is skipped, an optional sign is consumed, and the longest
prefix of decimal digits is converted; if that prefix is empty the result is
`NaN`, modelled as `none`.  The modelled whitespace set is the common subset
space / tab / newline / carriage return. -/

def isJsWs (c : Char) : Bool :=
  c = ' ' || c = '\t' || c = '\n' || c = '\r'

def trimChars (cs : List Char) : List Char :=
  ((cs.dropWhile isJsWs).reverse.dropWhile isJsWs).reverse

def jsTrim (s : String) : String :=
  String.mk (trimChars s.data)

/-- `cs.split(sep)` for a single-character separator, JS semantics:
`"".split(sep) = [""]`, adjacent separators produce empty fields. -/
def splitOnChar (sep : Char) : List Char → List (List Char)
  | [] => [[]]
  | c :: rest =>
    if c = sep then
      [] :: splitOnChar sep rest
    else
      match splitOnChar sep rest with
      | h :: t => (c :: h) :: t
      | [] => [[c]]

def digitsVal (ds : List Char) : Nat :=
  ds.foldl (fun a c => a * 10 + (c.toNat - 48)) 0

/-- `parseInt(s, 10)`, on the character list of `s`; `none` models `NaN`. -/
def jsParseInt (cs : List Char) : Option Int :=
  match cs.dropWhile isJsWs with
  | '-' :: rest =>
    let ds := rest.takeWhile Char.isDigit
    if ds.isEmpty then none else some (-(digitsVal ds : Int))
  | '+' :: rest =>
    let ds := rest.takeWhile Char.isDigit
    if ds.isEmpty then none else some (digitsVal ds : Int)
  | other =>
    let ds := other.takeWhile Char.isDigit
    if ds.isEmpty then none else some (digitsVal ds : Int)

/-! ## Exit-code policy parser (`parseSuccessExitCodes`, main.ts lines 63-121) -/

def mkRangeFormatErr (part : List Char) : String :=
  "Invalid range format: \"" ++ String.mk part ++
    "\". Expected format: \"start-end\" (e.g., \"0-2\")"

def mkRangeNegativeErr (part : List Char) : String :=
  "Invalid range: \"" ++ String.mk part ++
    "\". Exit codes must be non-negative integers"

def mkRangeOrderErr (part : List Char) (s e : Int) : String :=
  "Invalid range: \"" ++ String.mk part ++ "\". Start (" ++ toString s ++
    ") must be less than or equal to end (" ++ toString e ++ ")"

def mkInvalidCodeErr (part : List Char) : String :=
  "Invalid exit code: \"" ++ String.mk part ++
    "\". Expected a number or range (e.g., \"0\" or \"0-2\")"

def mkCodeNegativeErr (part : List Char) : String :=
  "Invalid exit code: \"" ++ String.mk part ++
    "\". Exit codes must be non-negative integers"

/-- The body of `for (let i = start; i <= end; i++) exitCodes.add(i)`:
the loop runs `(end + 1 - start)` times (zero times when `end < start`). -/
def addRangeLoop (acc : Finset ℤ) (start endv : Int) : Finset ℤ :=
  (List.range (endv + 1 - start).toNat).foldl
    (fun (a : Finset ℤ) (k : Nat) => insert (start + (k : Int)) a) acc

/-- One iteration of the `for (const part of parts)` loop in
`parseSuccessExitCodes` (main.ts lines 73-118), acting on a trimmed part. -/
def addPart (acc : Finset ℤ) (part : List Char) : Except String (Finset ℤ) :=
  if part.contains '-' then
    let sides := (splitOnChar '-' part).map trimChars
    let startv := jsParseInt (sides.getD 0 [])
    let endv := jsParseInt (sides.getD 1 [])
    match startv, endv with
    | none, _ => .error (mkRangeFormatErr part)
    | _, none => .error (mkRangeFormatErr part)
    | some s, some e =>
      if s < 0 || e < 0 then .error (mkRangeNegativeErr part)
      else if s > e then .error (mkRangeOrderErr part s e)
      else .ok (addRangeLoop acc s e)
  else
    match jsParseInt part with
    | none => .error (mkInvalidCodeErr part)
    | some code =>
      if code < 0 then .error (mkCodeNegativeErr part)
      else .ok (insert code acc)

/-- `parseSuccessExitCodes` (main.ts lines 63-121): blank input defaults to
`{0}`; otherwise the input is split on commas, each part trimmed and
processed by `addPart`. -/
def parseSuccessExitCodes (input : String) : Except String (Finset ℤ) :=
  if trimChars input.data = [] then .ok {0}
  else
    ((splitOnChar ',' input.data).map trimChars).foldlM addPart ∅

/-! ## Command tokenizer (`parseCommand`, main.ts lines 425-477) -/

/-- The double-quote character. -/
def dquoteChar : Char := Char.ofNat 34

/-- The single-quote character. -/
def squoteChar : Char := Char.ofNat 39

structure ScanState where
  args : List String
  current : List Char
  inQuotes : Option Char
  escaped : Bool
deriving Repr, DecidableEq

def scanInit : ScanState := ⟨[], [], none, false⟩

/-- One iteration of the character loop of `parseCommand`
(main.ts lines 431-461). -/
def scanStep (st : ScanState) (c : Char) : ScanState :=
  if st.escaped then
    { st with current := st.current ++ [c], escaped := false }
  else if c = '\\' then
    { st with escaped := true }
  else
    match st.inQuotes with
    | some q =>
      if c = q then { st with inQuotes := none }
      else { st with current := st.current ++ [c] }
    | none =>
      if c = dquoteChar || c = squoteChar then { st with inQuotes := some c }
      else if c = ' ' || c = '\t' || c = '\n' then
        if st.current.isEmpty then st
        else { st with args := st.args ++ [String.mk st.current], current := [] }
      else { st with current := st.current ++ [c] }

def scanCommand (command : String) : ScanState :=
  command.data.foldl scanStep scanInit

def incompleteEscapeMsg : String :=
  "Invalid command: ends with an incomplete escape sequence"

def unclosedQuoteMsg (q : Char) : String :=
  "Invalid command: unclosed quote (" ++ String.mk [q] ++ ")"

/-- The final flush (main.ts lines 472-476): any non-empty accumulator
becomes the last token. -/
def flushArgs (st : ScanState) : List String :=
  st.args ++ if st.current.isEmpty then [] else [String.mk st.current]

/-- End-of-scan handling (main.ts lines 463-476), checks in source order:
dangling escape, then open quote, then flush. -/
def parseFinish (st : ScanState) : Except String (List String) :=
  if st.escaped then .error incompleteEscapeMsg
  else
    match st.inQuotes with
    | some q => .error (unclosedQuoteMsg q)
    | none => .ok (flushArgs st)

/-- `parseCommand` (main.ts lines 425-477): the character scan followed by
the end-of-scan checks. -/
def parseCommand (command : String) : Except String (List String) :=
  parseFinish (scanCommand command)

/-! ## Execution result and settlement machines (`executeCommand`)

`executeCommand` (main.ts lines 130-374) wires a promise to several
asynchronous event sources on the spawned child.  We model the per-invocation
mutable state (`stdout`, `stderr`, `combinedOutput`, `settled`, and in
Combined mode the write descriptor / reader lifecycle flags) and the handler
reactions to child events.

Crucial ordering fact (Node.js `EventEmitter`): listeners for one event fire
synchronously in registration order.  `setupSignalHandlers` is called at
main.ts line 180 (Separate mode) / line 274 (Combined mode) and registers
`cleanupSignalHandlers` on the child's `close` and `error` events
(lines 414-415) *before* `executeCommand` registers its own `error` and
`close` handlers (lines 192/199 and 288/303).  Hence on each `close` or
`error` event the signal-cleanup callback runs first, then the promise
handler; `step` functions below compose the two in that order. -/

structure ExecResult where
  stdout : String
  stderr : String
  combinedOutput : String
  exitCode : Int
deriving Repr, DecidableEq

inductive Outcome where
  /-- the promise was resolved with an `ExecResult` -/
  | resolved (r : ExecResult)
  /-- the promise was rejected with an error -/
  | rejected (msg : String)
deriving Repr, DecidableEq

inductive ChildEvent where
  /-- child `close` event with exit code (`null` when killed by a signal) -/
  | close (code : Option Int)
  /-- child `error` event (e.g. spawn failure) -/
  | error (msg : String)
  /-- `child.stdout` `data` event (Separate mode source) -/
  | outData (s : String)
  /-- `child.stderr` `data` event (Separate mode source) -/
  | errData (s : String)
  /-- FIFO reader `data` event (Combined mode source) -/
  | readerData (s : String)
  /-- FIFO reader `end` event -/
  | readerEnd
deriving Repr, DecidableEq

/-! ### Separate mode (main.ts lines 155-209) -/

structure SepState where
  stdout : String
  stderr : String
  combinedOutput : String
  settled : Bool
  outcome : Option Outcome
deriving Repr, DecidableEq

def sepInit : SepState := ⟨"", "", "", false, none⟩

/-- The cleanup callback passed to `setupSignalHandlers` in Separate mode
(main.ts lines 180-190): resolves with the captured buffers and exit code 0. -/
def sepCleanupCb (st : SepState) : SepState :=
  if st.settled then st
  else
    { st with
      settled := true
      outcome := some (.resolved ⟨st.stdout, st.stderr, st.combinedOutput, 0⟩) }

/-- The `child.on('error', ...)` handler (main.ts lines 192-197). -/
def sepOnError (msg : String) (st : SepState) : SepState :=
  if st.settled then st
  else { st with settled := true, outcome := some (.rejected msg) }

/-- The `child.on('close', ...)` handler (main.ts lines 199-209). -/
def sepOnClose (code : Option Int) (st : SepState) : SepState :=
  if st.settled then st
  else
    { st with
      settled := true
      outcome := some (.resolved
        ⟨st.stdout, st.stderr, st.combinedOutput, code.getD 0⟩) }

/-- Deliver one child event to the Separate-mode machine.  On `close` and
`error` the signal-cleanup listener (registered first) runs before the
promise handler. -/
def sepStep (st : SepState) (ev : ChildEvent) : SepState :=
  match ev with
  | .outData s => { st with stdout := st.stdout ++ s }
  | .errData s => { st with stderr := st.stderr ++ s }
  | .readerData _ => st
  | .readerEnd => st
  | .close c => sepOnClose c (sepCleanupCb st)
  | .error e => sepOnError e (sepCleanupCb st)

def sepRun (events : List ChildEvent) : SepState :=
  events.foldl sepStep sepInit

/-! ### Combined mode (main.ts lines 210-372)

We model the machine from the point where the `setTimeout` body has opened
the write end, unlinked the FIFO node (line 263, before the child is
spawned), and spawned the child; `fifoUnlinked` is therefore `true` in the
initial state. -/

structure CombState where
  stdout : String
  stderr : String
  combinedOutput : String
  settled : Bool
  outcome : Option Outcome
  writeFdOpen : Bool
  readerDestroyed : Bool
  readerEnded : Bool
  fifoUnlinked : Bool
deriving Repr, DecidableEq

def combInit : CombState := ⟨"", "", "", false, none, true, false, false, true⟩

/-- The cleanup callback passed to `setupSignalHandlers` in Combined mode
(main.ts lines 274-286): closes the write descriptor and destroys the
reader, but neither resolves nor rejects. -/
def combCleanupCb (st : CombState) : CombState :=
  if st.settled then st
  else
    { st with settled := true, writeFdOpen := false, readerDestroyed := true }

/-- The `child.on('error', ...)` handler (main.ts lines 288-301). -/
def combOnError (msg : String) (st : CombState) : CombState :=
  if st.settled then st
  else
    { st with
      settled := true
      writeFdOpen := false
      readerDestroyed := true
      outcome := some (.rejected msg) }

/-- The record built by `finalize` in the `child.on('close', ...)` handler
(main.ts lines 320-325). -/
def combCloseRecord (st : CombState) (code : Option Int) : ExecResult :=
  ⟨st.stdout, st.stderr, st.combinedOutput, code.getD 0⟩

/-- The `child.on('close', ...)` handler (main.ts lines 303-336): closes the
write descriptor, then `finalize` (run immediately when the reader already
ended, otherwise after a bounded wait) destroys the reader and resolves. -/
def combOnClose (code : Option Int) (st : CombState) : CombState :=
  if st.settled then st
  else
    { st with
      settled := true
      writeFdOpen := false
      readerDestroyed := true
      outcome := some (.resolved (combCloseRecord st code)) }

/-- Deliver one child event to the Combined-mode machine; on `close`/`error`
the signal-cleanup listener runs first (registration order). -/
def combStep (st : CombState) (ev : ChildEvent) : CombState :=
  match ev with
  | .outData _ => st
  | .errData _ => st
  | .readerData s =>
    if st.readerDestroyed then st
    else { st with combinedOutput := st.combinedOutput ++ s }
  | .readerEnd =>
    if st.readerDestroyed then st else { st with readerEnded := true }
  | .close c => combOnClose c (combCleanupCb st)
  | .error e => combOnError e (combCleanupCb st)

def combRun (events : List ChildEvent) : CombState :=
  events.foldl combStep combInit

/-! ## The `run` orchestration (main.ts lines 12-54) -/

def asciiLower (c : Char) : Char :=
  if 'A' ≤ c && c ≤ 'Z' then Char.ofNat (c.toNat + 32) else c

def jsToLower (s : String) : String :=
  String.mk (s.data.map asciiLower)

/-- `separate_outputs` input parsing (main.ts lines 25-27). -/
def parseSeparateOutputs (s : String) : Bool :=
  jsToLower s = "true" || s = "1"

structure RunEffects where
  /-- `core.setOutput` calls, in order -/
  outputs : List (String × String)
  /-- `core.setFailed` message, when the run was marked failed -/
  failed : Option String
deriving Repr, DecidableEq

/-- `run` (main.ts lines 12-54) after `executeCommand` has been awaited:
`exec = none` models a promise that never settles (`run` then never
completes, producing no effects at all); a rejection is caught and reported
via `setFailed`; a resolution drives the output and exit-code policy logic
of lines 32-49. -/
def runWithExec (successExitCodesInput : String) (separateOutputs : Bool)
    (exec : Option Outcome) : Option RunEffects :=
  match parseSuccessExitCodes successExitCodesInput with
  | .error msg => some ⟨[], some msg⟩
  | .ok successExitCodes =>
    match exec with
    | none => none
    | some (.rejected msg) => some ⟨[], some msg⟩
    | some (.resolved r) =>
      let outs :=
        (if separateOutputs then [("stdout", r.stdout), ("stderr", r.stderr)]
         else [("combined_output", r.combinedOutput)]) ++
        [("exit_code", toString r.exitCode)]
      if r.exitCode ∈ successExitCodes then some ⟨outs, none⟩
      else
        let errorOutput :=
          if separateOutputs then
            (if r.stderr = "" then r.stdout else r.stderr)
          else r.combinedOutput
        some ⟨outs, some ("Command exited with code " ++ toString r.exitCode
          ++ ": " ++ errorOutput)⟩

/-- `run` composed with the settlement machine of the selected capture mode,
driven by a concrete child-event sequence. -/
def runModel (successExitCodesInput separateOutputsInput : String)
    (events : List ChildEvent) : Option RunEffects :=
  let sep := parseSeparateOutputs separateOutputsInput
  runWithExec successExitCodesInput sep
    (if sep then (sepRun events).outcome else (combRun events).outcome)

/-! ## Signal handler registry (`setupSignalHandlers`, main.ts lines 382-416)

`setupSignalHandlers` registers, with `process.on`, one fresh handler per
signal in the fixed list, remembering them in a `Map`; the
`cleanupSignalHandlers` callback (attached to both the child's `close` and
`error` events) removes exactly the remembered handlers with
`process.removeListener` and clears the map, so a second firing removes
nothing.  Handlers are modelled as `(invocation id, signal)` pairs; a fresh
id per invocation models the fresh closures the source creates. -/

inductive Sig where
  | sigint | sigterm | sigquit | sighup | sigpipe | sigabrt
deriving Repr, DecidableEq

/-- The `signals` list of main.ts lines 386-393. -/
def signals : List Sig :=
  [.sigint, .sigterm, .sigquit, .sighup, .sigpipe, .sigabrt]

/-- Process-wide listener table: `nextId` supplies fresh handler identities,
`listeners` is the multiset of currently registered `(handler, signal)`
registrations, in registration order. -/
structure ProcState where
  nextId : Nat
  listeners : List (Nat × Sig)
deriving Repr, DecidableEq

/-- The registration loop of `setupSignalHandlers` (main.ts lines 395-403):
adds one handler per signal and returns the remembered handler map. -/
def setupHandlers (ps : ProcState) : ProcState × List (Nat × Sig) :=
  let hs := signals.map (fun s => (ps.nextId, s))
  (⟨ps.nextId + 1, ps.listeners ++ hs⟩, hs)

/-- `cleanupSignalHandlers` (main.ts lines 406-412): one
`process.removeListener` call per remembered handler. -/
def removeHandlers (l : List (Nat × Sig)) (hs : List (Nat × Sig)) :
    List (Nat × Sig) :=
  hs.foldl (fun acc h => acc.erase h) l

/-- Child lifecycle events as seen by `setupSignalHandlers`:
`cleanupSignalHandlers` is attached to `close` and `error`
(main.ts lines 414-415); other events leave the registry alone. -/
inductive LifeEvent where
  | close | error | other
deriving Repr, DecidableEq

def LifeEvent.isTerminal : LifeEvent → Bool
  | .close => true
  | .error => true
  | .other => false

/-- Deliver one lifecycle event: on `close`/`error`, remove the handlers
remembered in the map and clear the map. -/
def lifeStep (st : List (Nat × Sig) × List (Nat × Sig)) (ev : LifeEvent) :
    List (Nat × Sig) × List (Nat × Sig) :=
  if ev.isTerminal then (removeHandlers st.1 st.2, []) else st

/-- One invocation: register the handlers at spawn, then deliver the child's
lifecycle events. -/
def runInvocation (ps : ProcState) (events : List LifeEvent) : ProcState :=
  let (ps1, hs) := setupHandlers ps
  ⟨ps1.nextId, (events.foldl lifeStep (ps1.listeners, hs)).1⟩

def runInvocations (ps : ProcState) (invs : List (List LifeEvent)) : ProcState :=
  invs.foldl runInvocation ps

/-- Number of active handlers for signal `sig` in listener table `l`. -/
def countHandlers (l : List (Nat × Sig)) (sig : Sig) : Nat :=
  (l.filter (fun h => h.2 = sig)).length

/-- All registered handlers were created before `nextId`. -/
def FreshIds (ps : ProcState) : Prop :=
  ∀ h ∈ ps.listeners, h.1 < ps.nextId

/-! ## Tokenizer lemmas -/

lemma mk_ne_empty {cs : List Char} (h : cs ≠ []) : String.mk cs ≠ "" :=
  fun he => h (congrArg String.data he)

lemma data_ne_nil {a : String} (h : a ≠ "") : a.data ≠ [] :=
  fun hd => h (show a = "" from congrArg String.mk hd)

/-- One scan step either leaves the token list alone or pushes the (then
non-empty) accumulator. -/
lemma scanStep_args_cases (st : ScanState) (c : Char) :
    (scanStep st c).args = st.args ∨
      ((scanStep st c).args = st.args ++ [String.mk st.current] ∧
        st.current ≠ []) := by
  unfold scanStep
  repeat' split
  all_goals simp_all

/-- Tokens pushed during the scan are never empty. -/
lemma scan_args_ne :
    ∀ (cs : List Char) (st : ScanState), (∀ a ∈ st.args, a ≠ "") →
      ∀ a ∈ (cs.foldl scanStep st).args, a ≠ ""
  | [], _, h => h
  | c :: cs, st, h => by
    rw [List.foldl_cons]
    refine scan_args_ne cs _ ?_
    rcases scanStep_args_cases st c with he | ⟨he, hne⟩
    · rw [he]; exact h
    · rw [he]
      intro a ha
      rcases List.mem_append.1 ha with h2 | h2
      · exact h a h2
      · rw [List.mem_singleton.1 h2]; exact mk_ne_empty hne

/-- Every token returned by a successful `parseCommand` is non-empty. -/
lemma parseCommand_ok_ne_empty {s : String} {args : List String}
    (hok : parseCommand s = .ok args) : ∀ a ∈ args, a ≠ "" := by
  unfold parseCommand parseFinish at hok
  split at hok
  · exact absurd hok (by simp)
  · split at hok
    · exact absurd hok (by simp)
    · injection hok with hargs
      subst hargs
      intro a ha
      rcases List.mem_append.1 ha with h2 | h2
      · exact scan_args_ne _ scanInit (by intro a ha; simp [scanInit] at ha)
          a h2
      · split at h2
        · simp at h2
        next hne =>
          rw [List.mem_singleton.1 h2]
          exact mk_ne_empty (by simpa using hne)

/-- Characters that are neither the escape character, nor a quote, nor
token-boundary whitespace: the scan appends them to the accumulator
verbatim. -/
def isPlainChar (c : Char) : Bool :=
  !(c = '\\' || c = dquoteChar || c = squoteChar ||
    c = ' ' || c = '\t' || c = '\n')

/-- The condition named by the spec for the re-tokenization property: the
argument contains no whitespace and no quote characters (the escape
character `\` is *not* excluded). -/
def noWsNoQuote (s : String) : Bool :=
  s.data.all (fun c =>
    !(c = dquoteChar || c = squoteChar || c = ' ' || c = '\t' || c = '\n'))

/-- Arguments re-joined with single spaces. -/
def joinSpace : List String → String
  | [] => ""
  | [a] => a
  | a :: b :: rest => a ++ " " ++ joinSpace (b :: rest)

/-- Scanning a run of plain characters outside quotes appends them to the
accumulator. -/
lemma scan_plain_token :
    ∀ (cs : List Char) (st : ScanState), st.escaped = false →
      st.inQuotes = none → (∀ c ∈ cs, isPlainChar c = true) →
      cs.foldl scanStep st = { st with current := st.current ++ cs }
  | [], st, _, _, _ => by cases st; simp
  | c :: cs, st, hesc, hq, hpl => by
    have hc := hpl c (List.mem_cons_self c cs)
    simp only [isPlainChar, Bool.not_eq_true', Bool.or_eq_false_iff,
      decide_eq_false_iff_not] at hc
    obtain ⟨⟨⟨⟨⟨h1, h2⟩, h3⟩, h4⟩, h5⟩, h6⟩ := hc
    have hstep : scanStep st c = { st with current := st.current ++ [c] } := by
      unfold scanStep
      rw [hesc, hq]
      simp [h1, h2, h3, h4, h5, h6]
    rw [List.foldl_cons, hstep,
      scan_plain_token cs { st with current := st.current ++ [c] }
        hesc hq (fun d hd => hpl d (List.mem_cons_of_mem c hd))]
    simp

/-- A token-boundary space flushes a non-empty accumulator. -/
lemma scanStep_space (A : List String) (cur : List Char) (h : cur ≠ []) :
    scanStep ⟨A, cur, none, false⟩ ' ' =
      ⟨A ++ [String.mk cur], [], none, false⟩ := by
  unfold scanStep
  simp [dquoteChar, squoteChar, h]

/-- Scanning arguments re-joined with single spaces, when every argument is
non-empty and consists of plain characters, recovers exactly those
arguments. -/
lemma scan_joinSpace :
    ∀ (ts : List String) (A : List String),
      (∀ t ∈ ts, t.data ≠ [] ∧ ∀ c ∈ t.data, isPlainChar c = true) →
      parseFinish ((joinSpace ts).data.foldl scanStep ⟨A, [], none, false⟩) =
        .ok (A ++ ts)
  | [], A, _ => by simp [joinSpace, parseFinish, flushArgs]
  | [t], A, h => by
    obtain ⟨hne, hpl⟩ := h t (by simp)
    have := scan_plain_token t.data (⟨A, [], none, false⟩ : ScanState) rfl rfl hpl
    simp only [joinSpace, this]
    simp [parseFinish, flushArgs, hne]
  | t :: t' :: rest, A, h => by
    obtain ⟨hne, hpl⟩ := h t (by simp)
    have hdata : (joinSpace (t :: t' :: rest)).data =
        t.data ++ (' ' :: (joinSpace (t' :: rest)).data) := by
      show (t ++ " " ++ joinSpace (t' :: rest)).data = _
      simp
    rw [hdata, List.foldl_append,
      scan_plain_token t.data (⟨A, [], none, false⟩ : ScanState) rfl rfl hpl,
      List.foldl_cons]
    have hsp := scanStep_space A t.data hne
    simp only [List.nil_append] at hsp ⊢
    rw [hsp, scan_joinSpace (t' :: rest) (A ++ [String.mk t.data])
      (fun u hu => h u (List.mem_cons_of_mem t hu))]
    simp

/-! ## Claims C8, C9, C10 -/

/-- C10: on every input where `parseCommand` succeeds, no returned argument
is the empty string — tokens are pushed only when non-empty — and a quoted
empty argument surrounded by whitespace contributes no argument at all. -/
theorem parseCommand_no_empty_args :
    (∀ (s : String) (args : List String), parseCommand s = .ok args →
      ∀ a ∈ args, a ≠ "") ∧
    parseCommand "a \"\" b" = .ok ["a", "b"] :=
  ⟨fun _ _ hok => parseCommand_ok_ne_empty hok, by decide⟩

/-- Witness for `parseCommand_no_empty_args` at the input `"x y"`. -/
theorem parseCommand_no_empty_args_witness :
    parseCommand "x y" = .ok ["x", "y"] ∧ ("x" : String) ≠ "" :=
  ⟨by decide,
   parseCommand_no_empty_args.1 "x y" ["x", "y"] (by decide) "x" (by decide)⟩

/-- C9 counterexample: the re-tokenization claim fails as stated.  The input
`a\\b` (four characters) tokenizes to the single argument `a\b`, which
contains no whitespace and no quote character, yet re-tokenizing it yields
`ab`: the backslash of the argument is consumed as an escape. -/
theorem join_roundtrip_counterexample :
    parseCommand "a\\\\b" = .ok ["a\\b"] ∧
    noWsNoQuote "a\\b" = true ∧
    parseCommand (joinSpace ["a\\b"]) = .ok ["ab"] ∧
    (Except.ok ["ab"] : Except String (List String)) ≠ .ok ["a\\b"] :=
  ⟨by decide, by decide, by decide, by decide⟩

/-- C9 (amended): when `parseCommand` succeeds and every resulting argument
contains no whitespace, no quote character *and no backslash*, re-tokenizing
the arguments joined with single spaces reproduces the argument vector. -/
theorem parseCommand_join_roundtrip :
    ∀ (s : String) (args : List String), parseCommand s = .ok args →
      (∀ a ∈ args, ∀ c ∈ a.data, isPlainChar c = true) →
      parseCommand (joinSpace args) = .ok args := by
  intro s args hok hpl
  have hne := parseCommand_ok_ne_empty hok
  have h := scan_joinSpace args []
    (fun t ht => ⟨data_ne_nil (hne t ht), hpl t ht⟩)
  simpa [parseCommand, scanCommand, scanInit] using h

/-- Witness for `parseCommand_join_roundtrip` at the input `"foo bar"`. -/
theorem parseCommand_join_roundtrip_witness :
    parseCommand "foo bar" = .ok ["foo", "bar"] ∧
    parseCommand (joinSpace ["foo", "bar"]) = .ok ["foo", "bar"] :=
  ⟨by decide,
   parseCommand_join_roundtrip "foo bar" ["foo", "bar"] (by decide) (by decide)⟩

/-- C8: the end-of-scan conditions of `parseCommand` are checked in source
order — dangling escape first, then unclosed quote, then flush — with the
concrete examples of the spec, and an input that ends escaped *inside* an
open quote is reported as an incomplete escape sequence. -/
theorem parseCommand_end_order :
    (∀ s : String, (scanCommand s).escaped = true →
      parseCommand s = .error incompleteEscapeMsg) ∧
    (∀ (s : String) (q : Char), (scanCommand s).escaped = false →
      (scanCommand s).inQuotes = some q →
      parseCommand s = .error (unclosedQuoteMsg q)) ∧
    (∀ s : String, (scanCommand s).escaped = false →
      (scanCommand s).inQuotes = none →
      parseCommand s = .ok (flushArgs (scanCommand s))) ∧
    parseCommand "echo \"hello" =
      .error "Invalid command: unclosed quote (\")" ∧
    parseCommand "echo hello\\" = .error incompleteEscapeMsg ∧
    (scanCommand "\"hi\\").escaped = true ∧
    (scanCommand "\"hi\\").inQuotes = some dquoteChar ∧
    parseCommand "\"hi\\" = .error incompleteEscapeMsg := by
  refine ⟨?_, ?_, ?_, by decide, by decide, by decide, by decide, by decide⟩
  · intro s h
    simp [parseCommand, parseFinish, h]
  · intro s q hesc hq
    simp [parseCommand, parseFinish, hesc, hq]
  · intro s hesc hq
    simp [parseCommand, parseFinish, hesc, hq]

/-- Witness for `parseCommand_end_order` at the inputs `"a\"` and `"\"x"`. -/
theorem parseCommand_end_order_witness :
    ((scanCommand "a\\").escaped = true ∧
      parseCommand "a\\" = .error incompleteEscapeMsg) ∧
    ((scanCommand "\"x").escaped = false ∧
      (scanCommand "\"x").inQuotes = some dquoteChar ∧
      parseCommand "\"x" = .error (unclosedQuoteMsg dquoteChar)) :=
  ⟨⟨by decide, parseCommand_end_order.1 "a\\" (by decide)⟩,
   ⟨by decide, by decide,
    parseCommand_end_order.2.1 "\"x" dquoteChar (by decide) (by decide)⟩⟩

/-! ## Exit-code policy lemmas and claims C6, C7 -/

/-- Unfolding the range loop one step at the top end. -/
lemma foldl_insert_range :
    ∀ (n : Nat) (acc : Finset ℤ) (s : Int),
      (List.range n).foldl
          (fun (a : Finset ℤ) (k : Nat) => insert (s + (k : Int)) a) acc =
        acc ∪ Finset.Icc s (s + n - 1)
  | 0, acc, s => by
    rw [List.range_zero, List.foldl_nil]
    ext x
    simp only [Finset.mem_union, Finset.mem_Icc]
    push_cast
    constructor
    · exact Or.inl
    · rintro (h | ⟨h1, h2⟩)
      · exact h
      · exfalso
        omega
  | n + 1, acc, s => by
    rw [List.range_succ, List.foldl_append, foldl_insert_range n acc s,
      List.foldl_cons, List.foldl_nil]
    ext x
    simp only [Finset.mem_insert, Finset.mem_union, Finset.mem_Icc]
    push_cast
    constructor
    · rintro (rfl | h | ⟨h1, h2⟩)
      · exact Or.inr ⟨by omega, by omega⟩
      · exact Or.inl h
      · exact Or.inr ⟨h1, by omega⟩
    · rintro (h | ⟨h1, h2⟩)
      · exact Or.inr (Or.inl h)
      · by_cases hx : x = s + (n : Int)
        · exact Or.inl hx
        · exact Or.inr (Or.inr ⟨h1, by omega⟩)

/-- The loop of main.ts lines 98-100 adds exactly the integers in
`[start, end]` when `start ≤ end`. -/
lemma addRangeLoop_eq (acc : Finset ℤ) (s e : Int) (h : s ≤ e) :
    addRangeLoop acc s e = acc ∪ Finset.Icc s e := by
  unfold addRangeLoop
  rw [foldl_insert_range]
  congr 1
  have : ((e + 1 - s).toNat : Int) = e + 1 - s := Int.toNat_of_nonneg (by omega)
  rw [this]
  ring_nf

/-- C6: the policy parser returns `{0}` on blank input; otherwise it splits
the input on commas, trims each part, expands each hyphenated part into
every integer of the inclusive range, adds each plain part as a single
code, and behaves as the spec's examples demand. -/
theorem parseSuccessExitCodes_spec :
    (∀ input : String, trimChars input.data = [] →
      parseSuccessExitCodes input = .ok {0}) ∧
    (∀ input : String, trimChars input.data ≠ [] →
      parseSuccessExitCodes input =
        ((splitOnChar ',' input.data).map trimChars).foldlM addPart ∅) ∧
    (∀ (acc : Finset ℤ) (s e : Int), s ≤ e →
      addRangeLoop acc s e = acc ∪ Finset.Icc s e) ∧
    parseSuccessExitCodes "" = .ok {0} ∧
    parseSuccessExitCodes "   " = .ok {0} ∧
    parseSuccessExitCodes "0,2-4,7" = .ok {0, 2, 3, 4, 7} ∧
    parseSuccessExitCodes "5-2" =
      .error "Invalid range: \"5-2\". Start (5) must be less than or equal to end (2)" ∧
    parseSuccessExitCodes "abc" =
      .error "Invalid exit code: \"abc\". Expected a number or range (e.g., \"0\" or \"0-2\")" := by
  refine ⟨?_, ?_, addRangeLoop_eq, by decide, by decide, by decide,
    by decide, by decide⟩
  · intro input h
    simp [parseSuccessExitCodes, h]
  · intro input h
    simp [parseSuccessExitCodes, h]

/-- Witness for `parseSuccessExitCodes_spec`: blank default at `"  "`, and
range expansion at `1 ≤ 3`. -/
theorem parseSuccessExitCodes_spec_witness :
    (trimChars ("  " : String).data = [] ∧
      parseSuccessExitCodes "  " = .ok {0}) ∧
    ((1 : Int) ≤ 3 ∧ addRangeLoop ∅ 1 3 = ∅ ∪ Finset.Icc 1 3) :=
  ⟨⟨by decide, parseSuccessExitCodes_spec.1 "  " (by decide)⟩,
   ⟨by norm_num, parseSuccessExitCodes_spec.2.2.1 ∅ 1 3 (by norm_num)⟩⟩

/-- C7 counterexample: a token with a numeric prefix followed by non-numeric
characters is *not* rejected — `parseInt` truncates it, so policy `"12abc"`
parses successfully to `{12}`. -/
theorem numeric_prefix_token_accepted :
    parseSuccessExitCodes "12abc" = .ok {12} := by decide

/-- C7 (amended): a part with no leading decimal digits (after optional
sign) fails to parse and is rejected with an error naming the token, but a
part with a numeric prefix is truncated to that prefix (JS `parseInt`
semantics) and accepted, as are hyphenated parts whose sides have numeric
prefixes. -/
theorem parseInt_token_semantics :
    (∀ (acc : Finset ℤ) (part : List Char), part.contains '-' = false →
      jsParseInt part = none →
      addPart acc part = .error (mkInvalidCodeErr part)) ∧
    (∀ (acc : Finset ℤ) (part : List Char) (n : Int),
      part.contains '-' = false → jsParseInt part = some n → 0 ≤ n →
      addPart acc part = .ok (insert n acc)) ∧
    parseSuccessExitCodes "12abc" = .ok {12} ∧
    parseSuccessExitCodes "1x-3y" = .ok {1, 2, 3} ∧
    parseSuccessExitCodes "abc" =
      .error (mkInvalidCodeErr "abc".data) := by
  refine ⟨?_, ?_, by decide, by decide, by decide⟩
  · intro acc part hc hn
    simp only [addPart, hc]
    simp [hn]
  · intro acc part n hc hn hpos
    have hnlt : ¬(n < 0) := not_lt.2 hpos
    simp only [addPart, hc]
    simp [hn, hnlt]

/-- Witness for `parseInt_token_semantics` at the parts `"abc"` and
`"12abc"`. -/
theorem parseInt_token_semantics_witness :
    (jsParseInt ("abc" : String).data = none ∧
      addPart ∅ ("abc" : String).data =
        .error (mkInvalidCodeErr ("abc" : String).data)) ∧
    (jsParseInt ("12abc" : String).data = some 12 ∧
      addPart ∅ ("12abc" : String).data = .ok (insert 12 ∅)) :=
  ⟨⟨by decide, parseInt_token_semantics.1 ∅ ("abc" : String).data
      (by decide) (by decide)⟩,
   ⟨by decide, parseInt_token_semantics.2.1 ∅ ("12abc" : String).data 12
      (by decide) (by decide) (by norm_num)⟩⟩

/-! ## Signal-handler registry lemmas and claim C4 -/

/-- Removing exactly the handlers that were appended restores the baseline
listener table, provided none of them was already present. -/
lemma removeHandlers_append_self :
    ∀ (hs base : List (Nat × Sig)), (∀ h ∈ hs, h ∉ base) →
      removeHandlers (base ++ hs) hs = base
  | [], base, _ => by simp [removeHandlers]
  | h :: rest, base, hfr => by
    have hnb : h ∉ base := hfr h (List.mem_cons_self h rest)
    show (h :: rest).foldl (fun acc x => acc.erase x) (base ++ h :: rest) = base
    rw [List.foldl_cons, List.erase_append_right _ hnb, List.erase_cons_head]
    exact removeHandlers_append_self rest base
      (fun x hx => hfr x (List.mem_cons_of_mem h hx))

/-- After the remembered map is cleared, further `close`/`error` firings
leave the listener table unchanged. -/
lemma lifeSteps_cleared :
    ∀ (evs : List LifeEvent) (base : List (Nat × Sig)),
      evs.foldl lifeStep (base, []) = (base, [])
  | [], _ => rfl
  | ev :: evs, base => by
    have h1 : lifeStep (base, []) ev = (base, []) := by
      unfold lifeStep
      split <;> simp [removeHandlers]
    rw [List.foldl_cons, h1, lifeSteps_cleared evs base]

/-- Delivering any event sequence containing a `close` or `error` removes
exactly the freshly registered handlers. -/
lemma lifeSteps_terminal :
    ∀ (evs : List LifeEvent) (base hs : List (Nat × Sig)),
      (∀ h ∈ hs, h ∉ base) → (∃ ev ∈ evs, ev.isTerminal = true) →
      (evs.foldl lifeStep (base ++ hs, hs)).1 = base
  | [], _, _, _, ht => by simp at ht
  | ev :: evs, base, hs, hfr, ht => by
    rw [List.foldl_cons]
    by_cases hterm : ev.isTerminal = true
    · have h1 : lifeStep (base ++ hs, hs) ev = (base, []) := by
        unfold lifeStep
        rw [hterm]
        simp [removeHandlers_append_self hs base hfr]
      rw [h1, lifeSteps_cleared evs base]
    · have h1 : lifeStep (base ++ hs, hs) ev = (base ++ hs, hs) := by
        unfold lifeStep
        simp [hterm]
      rw [h1]
      refine lifeSteps_terminal evs base hs hfr ?_
      rcases ht with ⟨e, he, het⟩
      rcases List.mem_cons.1 he with rfl | he2
      · exact absurd het hterm
      · exact ⟨e, he2, het⟩

/-- In a fresh-id state, one invocation that sees a `close` or `error`
event restores the listener table and bumps the id counter. -/
lemma runInvocation_restores (ps : ProcState) (evs : List LifeEvent)
    (hf : FreshIds ps) (ht : ∃ ev ∈ evs, ev.isTerminal = true) :
    (runInvocation ps evs).listeners = ps.listeners ∧
      (runInvocation ps evs).nextId = ps.nextId + 1 := by
  have hfr : ∀ h ∈ signals.map (fun s => (ps.nextId, s)), h ∉ ps.listeners := by
    intro h hh hmem
    rcases List.mem_map.1 hh with ⟨s, _, rfl⟩
    exact absurd (hf _ hmem) (lt_irrefl ps.nextId)
  unfold runInvocation setupHandlers
  exact ⟨lifeSteps_terminal evs ps.listeners _ hfr ht, rfl⟩

/-- C4: `setupSignalHandlers` registers exactly one handler per forwarded
signal at spawn, the first `close`/`error` event removes all of them in one
cleanup step, and any number of sequential invocations (each seeing at
least one `close`/`error` event) returns the per-signal handler counts to
the baseline. -/
theorem signalHandlers_balanced :
    (∀ (ps : ProcState) (sig : Sig), sig ∈ signals →
      countHandlers (setupHandlers ps).1.listeners sig =
        countHandlers ps.listeners sig + 1) ∧
    (∀ (ps : ProcState) (evs : List LifeEvent), FreshIds ps →
      (∃ ev ∈ evs, ev.isTerminal = true) →
      (runInvocation ps evs).listeners = ps.listeners) ∧
    (∀ (ps : ProcState) (invs : List (List LifeEvent)), FreshIds ps →
      (∀ evs ∈ invs, ∃ ev ∈ evs, ev.isTerminal = true) →
      (runInvocations ps invs).listeners = ps.listeners) := by
  refine ⟨?_, ?_, ?_⟩
  · intro ps sig hsig
    unfold setupHandlers countHandlers
    rw [List.filter_append, List.length_append]
    congr 1
    cases sig <;> simp [signals]
  · intro ps evs hf ht
    exact (runInvocation_restores ps evs hf ht).1
  · intro ps invs hf hts
    induction invs generalizing ps with
    | nil => rfl
    | cons evs invs ih =>
      have h1 := runInvocation_restores ps evs hf
        (hts evs (List.mem_cons_self evs invs))
      have hf1 : FreshIds (runInvocation ps evs) := by
        intro h hh
        rw [h1.1] at hh
        rw [h1.2]
        exact (hf h hh).trans (Nat.lt_succ_self _)
      have := ih (runInvocation ps evs) hf1
        (fun e he => hts e (List.mem_cons_of_mem evs he))
      unfold runInvocations at this ⊢
      rw [List.foldl_cons, this, h1.1]

/-- Witness for `signalHandlers_balanced`: two sequential invocations from
the empty baseline, one closing and one erroring, leave no handlers. -/
theorem signalHandlers_balanced_witness :
    (Sig.sigint ∈ signals ∧
      countHandlers (setupHandlers ⟨0, []⟩).1.listeners .sigint =
        countHandlers (⟨0, []⟩ : ProcState).listeners .sigint + 1) ∧
    (FreshIds ⟨0, []⟩ ∧
      (runInvocations ⟨0, []⟩
        [[.other, .close], [.error, .close]]).listeners = []) :=
  ⟨⟨by decide, signalHandlers_balanced.1 ⟨0, []⟩ .sigint (by decide)⟩,
   ⟨by intro h hh; simp at hh,
    signalHandlers_balanced.2.2 ⟨0, []⟩ [[.other, .close], [.error, .close]]
      (by intro h hh; simp at hh) (by decide)⟩⟩

/-! ## Result-shape lemmas and claim C5 -/

/-- No Combined-mode handler ever touches the `stdout`/`stderr` buffers. -/
lemma combStep_keeps_sep_buffers (st : CombState) (ev : ChildEvent) :
    (combStep st ev).stdout = st.stdout ∧ (combStep st ev).stderr = st.stderr := by
  cases ev <;>
    unfold combStep combOnClose combOnError combCleanupCb combCloseRecord <;>
    (repeat' split) <;> simp_all

lemma combFold_keeps_sep_buffers :
    ∀ (evs : List ChildEvent) (st : CombState),
      (evs.foldl combStep st).stdout = st.stdout ∧
        (evs.foldl combStep st).stderr = st.stderr
  | [], _ => ⟨rfl, rfl⟩
  | ev :: evs, st => by
    rw [List.foldl_cons]
    obtain ⟨h1, h2⟩ := combFold_keeps_sep_buffers evs (combStep st ev)
    obtain ⟨h3, h4⟩ := combStep_keeps_sep_buffers st ev
    exact ⟨h1.trans h3, h2.trans h4⟩

/-- Invariant of the Separate-mode machine: the `combinedOutput` buffer
stays empty and every resolved outcome carries an empty `combinedOutput`. -/
def SepShapeInv (st : SepState) : Prop :=
  st.combinedOutput = "" ∧
    ∀ r : ExecResult, st.outcome = some (.resolved r) → r.combinedOutput = ""

lemma sepStep_shape (st : SepState) (ev : ChildEvent) (h : SepShapeInv st) :
    SepShapeInv (sepStep st ev) := by
  obtain ⟨h1, h2⟩ := h
  cases ev <;>
    unfold sepStep sepOnClose sepOnError sepCleanupCb <;>
    (repeat' split) <;>
    simp_all [SepShapeInv]

lemma sepFold_shape :
    ∀ (evs : List ChildEvent) (st : SepState), SepShapeInv st →
      SepShapeInv (evs.foldl sepStep st)
  | [], _, h => h
  | ev :: evs, st, h => by
    rw [List.foldl_cons]
    exact sepFold_shape evs (sepStep st ev) (sepStep_shape st ev h)

/-- C5: capture mode populates exactly one side of the result.  In Combined
mode the `stdout` and `stderr` fields of any state — and hence of the
record the close handler resolves with — are the empty string, while the
reader data accumulates in `combinedOutput`; in Separate mode
`combinedOutput` stays empty, every resolved result carries an empty
`combinedOutput`, and the captured streams are delivered in `stdout` and
`stderr`. -/
theorem result_shape_invariant :
    (∀ evs : List ChildEvent,
      (combRun evs).stdout = "" ∧ (combRun evs).stderr = "") ∧
    (∀ (evs : List ChildEvent) (c : Option Int),
      (combCloseRecord (combRun evs) c).stdout = "" ∧
      (combCloseRecord (combRun evs) c).stderr = "") ∧
    (∀ evs : List ChildEvent, (sepRun evs).combinedOutput = "") ∧
    (∀ (evs : List ChildEvent) (r : ExecResult),
      (sepRun evs).outcome = some (.resolved r) → r.combinedOutput = "") ∧
    (sepRun [.outData "A", .errData "B", .close (some 0)]).outcome =
      some (.resolved ⟨"A", "B", "", 0⟩) ∧
    (combRun [.readerData "AB", .readerEnd]).combinedOutput = "AB" := by
  have hcomb : ∀ evs : List ChildEvent,
      (combRun evs).stdout = "" ∧ (combRun evs).stderr = "" :=
    fun evs => combFold_keeps_sep_buffers evs combInit
  have hsep : ∀ evs : List ChildEvent, SepShapeInv (sepRun evs) :=
    fun evs => sepFold_shape evs sepInit ⟨rfl, fun r hr => by simp [sepInit] at hr⟩
  refine ⟨hcomb, ?_, fun evs => (hsep evs).1, fun evs => (hsep evs).2,
    by decide, by decide⟩
  intro evs c
  exact ⟨(hcomb evs).1, (hcomb evs).2⟩

/-- Witness for `result_shape_invariant`: a plain close event resolves the
Separate-mode machine with an empty `combinedOutput`. -/
theorem result_shape_invariant_witness :
    (sepRun [.close (some 0)]).outcome =
      some (.resolved ⟨"", "", "", 0⟩) ∧
    (ExecResult.mk "" "" "" 0).combinedOutput = "" :=
  ⟨by decide,
   result_shape_invariant.2.2.2.1 [.close (some 0)] ⟨"", "", "", 0⟩ (by decide)⟩

/-! ## Claims C1, C2, C3: the settlement listener-order defect

Because `cleanupSignalHandlers` is registered on the child's `close` and
`error` events before `executeCommand`'s own handlers, the cleanup callback
always runs first.  In Separate mode that callback resolves the promise
with exit code `0` regardless of the real exit code (and instead of
rejecting on a spawn error); in Combined mode it sets the `settled` guard
without delivering any outcome, so the promise never settles. -/

/-- C1 (code defect): a child exiting with code 42 never produces a failure
signal referencing 42.  Under the default inputs (Combined mode) `run`
never completes because `executeCommand` never settles; with
`separate_outputs: true` the run completes reporting exit code `0` and no
failure.  The exit-code policy logic of `run` itself (lines 41-49) would
mark the run failed with a message referencing 42 — and accept 42 under
policy `"0-50"` — if a result with exit code 42 were ever delivered. -/
theorem run_exit42_no_failure_signal :
    runModel "" "" [.close (some 42)] = none ∧
    runModel "" "true" [.close (some 42)] =
      some ⟨[("stdout", ""), ("stderr", ""), ("exit_code", "0")], none⟩ ∧
    runWithExec "0-50" false (some (.resolved ⟨"", "", "out", 42⟩)) =
      some ⟨[("combined_output", "out"), ("exit_code", "42")], none⟩ ∧
    runWithExec "" false (some (.resolved ⟨"", "", "boom", 42⟩)) =
      some ⟨[("combined_output", "boom"), ("exit_code", "42")],
        some "Command exited with code 42: boom"⟩ :=
  ⟨by decide, by decide, by decide, by decide⟩

/-- C2 (code defect): in Combined mode the signal-cleanup callback sets the
`settled` guard without delivering any outcome, so a child `close` event
leaves the promise settled-but-unresolved forever — contradicting the claim
that every path setting `settled` delivers exactly one outcome. -/
theorem combined_settled_without_outcome :
    (combRun [.close (some 7)]).settled = true ∧
    (combRun [.close (some 7)]).outcome = none :=
  ⟨by decide, by decide⟩

/-- C3 (code defect): a spawn error does not reject.  In Separate mode the
signal-cleanup callback (registered on `error` first) resolves with exit
code `0`; in Combined mode the guard is set with no outcome at all.  The
FIFO node is indeed already unlinked (it is removed right after the write
end opens, before the spawn). -/
theorem spawn_error_not_rejected :
    (sepRun [.error "spawn ENOENT"]).outcome =
      some (.resolved ⟨"", "", "", 0⟩) ∧
    (combRun [.error "spawn ENOENT"]).outcome = none ∧
    (combRun [.error "spawn ENOENT"]).settled = true ∧
    (combRun [.error "spawn ENOENT"]).fifoUnlinked = true :=
  ⟨by decide, by decide, by decide, by decide⟩

end ExecAction
